import Mathlib

/-!
# Verification of the vizmatic timeline / clip-resolution engine

Shallow embedding of the timeline segment resolver (`clipSegments`), the
playback mapper (`resolveActiveClip`), the numeric-edit clamp entrypoints
(`applyTrimEdit` / `applyDurationEdit`), the preview frame-coalescing latch
(`renderPreviewFrame`) and the particle simulator tick, all translated from
the renderer source.

Numeric values are embedded in a linear ordered field `K` (instantiated at
`ℚ` for executable checks and at `ℝ` where topological statements are
needed).  The clamp entrypoints, whose specification explicitly covers
`NaN`, are embedded over an explicit JavaScript-number domain `JNum` with
`NaN` and the two infinities.
-/

namespace Vizmatic

/-- The three fill policies of a clip edit (`'loop' | 'pingpong' | 'stretch'`). -/
inductive FillMethod where
  | loop
  | pingpong
  | stretch
deriving DecidableEq, Repr

/-- A clip edit record.  All fields are optional in the source
(`Partial<ClipEdit>`); a missing numeric field is `none` (covers both an
absent property and a non-finite stored number, which `Number.isFinite`
filters out identically in the resolver). -/
structure ClipEdit (K : Type) where
  timelineStart : Option K := none
  trimStart : Option K := none
  trimEnd : Option K := none
  duration : Option K := none
  fillMethod : Option FillMethod := none
  hue : Option K := none
  contrast : Option K := none
  brightness : Option K := none
  rotate : Option K := none
  flipH : Option Bool := none
  flipV : Option Bool := none
  invert : Option Bool := none
deriving DecidableEq, Repr

/-- The empty edit object `{}` used when a clip has no edit record
(`clipEdits[id] ?? {}`). -/
def emptyClipEdit (K : Type) : ClipEdit K := {}

/-- A resolved segment, the element type of the `clipSegments` output. -/
structure Segment (K : Type) where
  id : String
  path : String
  index : Nat
  start : K
  «end» : K
  duration : K
  trimStart : K
  trimEnd : K
  sourceDuration : K
  fillMethod : FillMethod
  hue : Option K
  contrast : Option K
  brightness : Option K
  rotate : Option K
  flipH : Option Bool
  flipV : Option Bool
  invert : Option Bool
  trimmedLength : K
deriving DecidableEq, Repr

variable {K : Type} [LinearOrderedField K]

/-- The id of the clip at `index`: `ids[index] || `«index»`:`«path»``
(the fallback fires when the index is out of range or the stored id is the
empty string, both falsy in JS). -/
def clipId (ids : List String) (index : Nat) (path : String) : String :=
  match ids[index]? with
  | some s => if s = "" then toString index ++ ":" ++ path else s
  | none => toString index ++ ":" ++ path

/-- Source: `const trimStart = Math.max(0, Number(edit.trimStart ?? 0))`. -/
def editTrimStart (edit : ClipEdit K) : K := max 0 (edit.trimStart.getD 0)

/-- Source: `const trimEnd = Number.isFinite(edit.trimEnd) ? Math.max(trimStart,
Number(edit.trimEnd)) : (sourceDuration > 0 ? sourceDuration : trimStart)`. -/
def editTrimEnd (edit : ClipEdit K) (sourceDuration : K) : K :=
  match edit.trimEnd with
  | some te => max (editTrimStart edit) te
  | none => if sourceDuration > 0 then sourceDuration else editTrimStart edit

/-- Source: `const trimmedLength = Math.max(0.05, trimEnd - trimStart)`
(`1/20 = 0.05`). -/
def editTrimmedLength (edit : ClipEdit K) (sourceDuration : K) : K :=
  max (1/20) (editTrimEnd edit sourceDuration - editTrimStart edit)

/-- Source: `const duration = Number.isFinite(edit.duration) ? Math.max(0.05,
Number(edit.duration)) : trimmedLength`. -/
def editDuration (edit : ClipEdit K) (sourceDuration : K) : K :=
  match edit.duration with
  | some d => max (1/20) d
  | none => editTrimmedLength edit sourceDuration

/-- Source: `const startOverride = Number.isFinite(edit.timelineStart) ?
Math.max(0, Number(edit.timelineStart)) : null`. -/
def editStartOverride (edit : ClipEdit K) : Option K :=
  edit.timelineStart.map (fun v => max 0 v)

/-- Source: `let start = startOverride === null ? cursor : Math.max(cursor,
startOverride)`. -/
def effectiveStart (edit : ClipEdit K) (cursor : K) : K :=
  match editStartOverride edit with
  | none => cursor
  | some o => max cursor o

/-- The audio clamp: with a limit, a segment starting at or past the limit
collapses to `(limit, 0)` and otherwise its duration is clamped to
`min(duration, Math.max(0, audioLimit - start))`; without a limit the pair
is unchanged.  Returns `(start, clampedDuration)`. -/
def clampToAudio (audioLimit : Option K) (start0 duration : K) : K × K :=
  match audioLimit with
  | none => (start0, duration)
  | some lim =>
    if start0 ≥ lim then (lim, 0)
    else (start0, min duration (max 0 (lim - start0)))

/-- Source: `cursor = audioLimit !== null ? Math.min(audioLimit, end) :
Math.max(cursor, end)`. -/
def nextCursor (audioLimit : Option K) (cursor endv : K) : K :=
  match audioLimit with
  | some lim => min lim endv
  | none => max cursor endv

/-- One step of the resolver loop body: given the running `cursor`, resolve
the clip at `index` with path `path`.  Translated from the `paths.map` body
of `clipSegments`, the named intermediate values factored out above.
Returns the emitted segment and the new cursor. -/
def resolveClip (ids : List String) (clipEdits : String → Option (ClipEdit K))
    (videoDurations : String → Option K) (audioLimit : Option K)
    (path : String) (index : Nat) (cursor : K) : Segment K × K :=
  let id := clipId ids index path
  let edit := (clipEdits id).getD (emptyClipEdit K)
  let sourceDuration := (videoDurations path).getD 0
  let sd := clampToAudio audioLimit (effectiveStart edit cursor)
    (editDuration edit sourceDuration)
  let endv := sd.1 + sd.2
  (⟨id, path, index, sd.1, endv, sd.2, editTrimStart edit,
    editTrimEnd edit sourceDuration, sourceDuration, edit.fillMethod.getD .loop,
    edit.hue, edit.contrast, edit.brightness, edit.rotate, edit.flipH,
    edit.flipV, edit.invert, editTrimmedLength edit sourceDuration⟩,
   nextCursor audioLimit cursor endv)

/-- The resolver loop over the remaining paths. -/
def clipSegmentsGo (ids : List String) (clipEdits : String → Option (ClipEdit K))
    (videoDurations : String → Option K) (audioLimit : Option K) :
    List String → Nat → K → List (Segment K)
  | [], _, _ => []
  | path :: rest, index, cursor =>
    let sc := resolveClip ids clipEdits videoDurations audioLimit path index cursor
    sc.1 :: clipSegmentsGo ids clipEdits videoDurations audioLimit rest (index + 1) sc.2

/-- The timeline segment resolver `clipSegments`: ordered clip paths and ids,
the clip-edit map, the probed source durations, and the audio duration
(`audioLimit = audioDuration > 0 ? audioDuration : null`); the cursor starts
at 0 and the paths are mapped in order. -/
def clipSegments (paths ids : List String) (clipEdits : String → Option (ClipEdit K))
    (videoDurations : String → Option K) (audioDuration : K) : List (Segment K) :=
  clipSegmentsGo ids clipEdits videoDurations
    (if audioDuration > 0 then some audioDuration else none) paths 0 0

/-- Cascading placement from a cursor: each segment starts exactly at the
cursor, ends `duration` later, and hands its `end` to the next one. -/
def ChainedFrom (c : K) : List (Segment K) → Prop
  | [] => True
  | s :: rest => s.start = c ∧ s.«end» = c + s.duration ∧ ChainedFrom s.«end» rest

/-- JavaScript truncation toward zero, as used by the `%` operator. -/
def jsTrunc [FloorRing K] (x : K) : ℤ := if 0 ≤ x then ⌊x⌋ else ⌈x⌉

/-- The JavaScript remainder operator `a % b` on finite operands with
`b ≠ 0`: `a - b * trunc(a / b)`.  (In the mapper every use is guarded by a
positive divisor and fed a non-negative dividend.) -/
def jsMod [FloorRing K] (a b : K) : K := a - b * jsTrunc (a / b)

/-- The mathematical (floor-based) remainder `a mod b`, as the spec writes
`rel mod loopLen`. -/
def fmod [FloorRing K] (a b : K) : K := a - b * ⌊a / b⌋

/-- The result record of the playback mapper:
`{ path: seg.path, local, duration: seg.duration }`. -/
structure ActiveClip (K : Type) where
  path : String
  localTime : K
  duration : K
deriving DecidableEq, Repr

/-- Source: `const loopLen = Math.max(0.05, seg.trimmedLength || (seg.sourceDuration
|| 0))` — `x || y` falls through on the JS falsy value `0`. -/
def mapperLoopLen (seg : Segment K) : K :=
  max (1/20)
    (if seg.trimmedLength ≠ 0 then seg.trimmedLength
     else if seg.sourceDuration ≠ 0 then seg.sourceDuration else 0)

/-- The pingpong branch body: `const period = loopLen * 2; const t = period
> 0 ? (rel % period) : 0; local = trimStart + (t <= loopLen ? t : (period -
t))` — this is the offset added to `trimStart`. -/
def pingpongOffset [FloorRing K] (loopLen rel : K) : K :=
  let period := loopLen * 2
  let phase := if period > 0 then jsMod rel period else 0
  if phase ≤ loopLen then phase else period - phase

/-- The body of `resolveActiveClip` computing the local source time of a
matched segment at global time `t`.  Translated line by line from the
source (`local` is initialized to `trimStart` and overwritten by the branch
taken; the final `else` is the loop formula, also reached when a `stretch`
segment has non-positive duration). -/
def segmentLocalTime [FloorRing K] (seg : Segment K) (t : K) : K :=
  let rel := max 0 (t - seg.start)
  if seg.fillMethod = .stretch ∧ seg.duration > 0 ∧ mapperLoopLen seg > 0 then
    seg.trimStart + mapperLoopLen seg * min 1 (rel / seg.duration)
  else if seg.fillMethod = .pingpong ∧ mapperLoopLen seg > 0 then
    seg.trimStart + pingpongOffset (mapperLoopLen seg) rel
  else
    seg.trimStart + (if mapperLoopLen seg > 0 then jsMod rel (mapperLoopLen seg) else 0)

/-- The playback mapper `resolveActiveClip`: scan the segments in order and
return the record for the first one whose closed interval
`[start, end]` contains the playhead; `null` when none does. -/
def resolveActiveClip [FloorRing K] : List (Segment K) → K → Option (ActiveClip K)
  | [], _ => none
  | seg :: rest, t =>
    if seg.start ≤ t ∧ t ≤ seg.«end» then
      some ⟨seg.path, segmentLocalTime seg t, seg.duration⟩
    else resolveActiveClip rest t

/-- A JavaScript number as the numeric-edit entrypoints see it: `NaN`, the
two infinities, or a finite value (embedded as a rational). -/
inductive JNum where
  | nan
  | posInf
  | negInf
  | num (q : ℚ)
deriving DecidableEq, Repr

def JNum.isNaN : JNum → Bool
  | .nan => true
  | _ => false

/-- The JS `<` comparison (false whenever an operand is `NaN`). -/
def jsLt : JNum → JNum → Bool
  | .nan, _ => false
  | _, .nan => false
  | .negInf, .negInf => false
  | .negInf, _ => true
  | _, .negInf => false
  | .posInf, _ => false
  | .num _, .posInf => true
  | .num p, .num q => decide (p < q)

/-- Source: `Math.max`: `NaN` if either argument is `NaN`, otherwise the larger. -/
def jsMax (a b : JNum) : JNum :=
  if a.isNaN || b.isNaN then .nan else if jsLt a b then b else a

/-- Source: `Math.min`: `NaN` if either argument is `NaN`, otherwise the smaller. -/
def jsMin (a b : JNum) : JNum :=
  if a.isNaN || b.isNaN then .nan else if jsLt b a then b else a

/-- JS subtraction (`∞ - ∞ = NaN`, `NaN` absorbs). -/
def jsSub : JNum → JNum → JNum
  | .nan, _ => .nan
  | _, .nan => .nan
  | .posInf, .posInf => .nan
  | .posInf, _ => .posInf
  | .negInf, .negInf => .nan
  | .negInf, _ => .negInf
  | .num _, .posInf => .negInf
  | .num _, .negInf => .posInf
  | .num p, .num q => .num (p - q)

/-- Source: `const maxDuration = audioDuration > 0 && seg?.start != null ?
Math.max(0, audioDuration - seg.start) : Number.POSITIVE_INFINITY` — shared
by `applyTrimEdit` and `applyDurationEdit`. -/
def durationMaxLimit (audioDuration : JNum) (segStart : Option JNum) : JNum :=
  if jsLt (.num 0) audioDuration && segStart.isSome then
    jsMax (.num 0) (jsSub audioDuration (segStart.getD .nan))
  else .posInf

/-- The duration clamp of `applyDurationEdit` (and of the duration half of
`applyTrimEdit`): `Math.min(Math.max(0.05, duration), maxDuration)`. -/
def clampDurationEdit (audioDuration : JNum) (segStart : Option JNum)
    (duration : JNum) : JNum :=
  jsMin (jsMax (.num (1/20)) duration) (durationMaxLimit audioDuration segStart)

/-- The trim-start clamp of `applyTrimEdit`:
`Math.max(0, Math.min(maxEnd - 0.05, Math.max(0, trimStart)))`, where
`maxEnd = seg?.trimEnd ?? (seg?.sourceDuration ?? Number.POSITIVE_INFINITY)`. -/
def clampTrimStartEdit (maxEnd : JNum) (trimStart : JNum) : JNum :=
  jsMax (.num 0) (jsMin (jsSub maxEnd (.num (1/20))) (jsMax (.num 0) trimStart))

/-- The pair `{ trimStart, duration }` stored by `applyTrimEdit`. -/
def applyTrimEditValues (maxEnd audioDuration : JNum) (segStart : Option JNum)
    (trimStart duration : JNum) : JNum × JNum :=
  (clampTrimStartEdit maxEnd trimStart,
   clampDurationEdit audioDuration segStart duration)

/-- The `duration` value stored by `applyDurationEdit`. -/
def applyDurationEditValue (audioDuration : JNum) (segStart : Option JNum)
    (duration : JNum) : JNum :=
  clampDurationEdit audioDuration segStart duration

/-- State of the preview frame latch: the `previewBusyRef` /
`previewQueuedRef` pair of flags, plus two ghost counters used only to state
properties — `running` counts frame renders currently executing and
`started` counts frame renders begun so far. -/
structure PreviewState where
  busy : Bool
  queued : Bool
  running : Nat
  started : Nat
deriving DecidableEq, Repr

/-- The entry of `renderPreviewFrame`:
`if (previewBusyRef.current) { previewQueuedRef.current = true; return; }`
followed by `previewBusyRef.current = true` and the render beginning. -/
def requestFrame (s : PreviewState) : PreviewState :=
  if s.busy then { s with queued := true }
  else { s with busy := true, running := s.running + 1, started := s.started + 1 }

/-- The tail of `renderPreviewFrame`: `previewBusyRef.current = false; if
(previewQueuedRef.current) { previewQueuedRef.current = false;
requestAnimationFrame(() => renderPreviewFrame()); }` — the scheduled
re-issue is modelled as the immediately following request. -/
def completeFrame (s : PreviewState) : PreviewState :=
  let s1 : PreviewState :=
    { busy := false, queued := false, running := s.running - 1, started := s.started }
  if s.queued then requestFrame s1 else s1

/-- The two events that touch the latch. -/
inductive PreviewEvent where
  | request
  | complete
deriving DecidableEq, Repr

def previewStep (s : PreviewState) : PreviewEvent → PreviewState
  | .request => requestFrame s
  | .complete => completeFrame s

def previewRun (s : PreviewState) : List PreviewEvent → PreviewState
  | [] => s
  | e :: es => previewRun (previewStep s e) es

/-- A trace is valid when `complete` only occurs while a render is in
flight (in the source, the completion code is the tail of the render that
set `busy`). -/
def ValidTrace (s : PreviewState) : List PreviewEvent → Prop
  | [] => True
  | e :: es => (e = .complete → s.busy = true) ∧ ValidTrace (previewStep s e) es

/-- The latch state before any render. -/
def previewInit : PreviewState := ⟨false, false, 0, 0⟩

/-- The latch invariant: `busy` counts exactly the running renders, and the
queued flag only holds while busy. -/
def PreviewInv (s : PreviewState) : Prop :=
  s.running = (if s.busy then 1 else 0) ∧ (s.queued = true → s.busy = true)

/-- A particle of a particle-field layer, in layer-local pixel space. -/
structure Particle where
  x : ℝ
  y : ℝ
  size : ℝ
  opacity : ℝ
  angleOffset : ℝ
  speedScale : ℝ

/-- Source: `const dt = isActive ? Math.min(0.05, (nowMs - state.lastTime) / 1000)
: 0` — `isActive` is `!!audioEl && !audioEl.paused`, i.e. false while
playback is paused. -/
noncomputable def particleDt (isActive : Bool) (nowMs lastTime : ℝ) : ℝ :=
  if isActive then min (1/20) ((nowMs - lastTime) / 1000) else 0

/-- The sequential edge wrap applied to each coordinate:
`if (v < 0) v += limit; if (v > limit) v -= limit;`. -/
noncomputable def wrapCoord (v limit : ℝ) : ℝ :=
  let v1 := if v < 0 then v + limit else v
  if v1 > limit then v1 - limit else v1

/-- Source: `const speedScale = layer.audioResponsive ? (1 + audioAmplitude) : 1`. -/
noncomputable def layerSpeedScale (audioResponsive : Bool) (audioAmplitude : ℝ) : ℝ :=
  if audioResponsive then 1 + audioAmplitude else 1

/-- The per-particle advance inside the draw loop: when `dt > 0` move along
`direction + angleOffset` by `baseSpeed * p.speedScale * speedScale * dt`
and wrap both coordinates at the box edges; otherwise leave the particle
untouched. -/
noncomputable def advanceParticle (direction baseSpeed speedScale dt drawW drawH : ℝ)
    (p : Particle) : Particle :=
  if dt > 0 then
    { p with
      x := wrapCoord (p.x + Real.cos (direction + p.angleOffset) *
        (baseSpeed * p.speedScale * speedScale) * dt) drawW,
      y := wrapCoord (p.y + Real.sin (direction + p.angleOffset) *
        (baseSpeed * p.speedScale * speedScale) * dt) drawH }
  else p

/-- One compositor tick over a layer's particle list. -/
noncomputable def tickParticles (direction baseSpeed : ℝ) (audioResponsive : Bool)
    (audioAmplitude : ℝ) (isActive : Bool) (nowMs lastTime drawW drawH : ℝ)
    (ps : List Particle) : List Particle :=
  ps.map (advanceParticle direction baseSpeed
    (layerSpeedScale audioResponsive audioAmplitude)
    (particleDt isActive nowMs lastTime) drawW drawH)

/-- The spec's reference clip: `sourceDuration = 10`, `trimStart = 2`,
`trimEnd = 4`, `duration = 5`, placed first. -/
def demoEdits : String → Option (ClipEdit ℚ) := fun id =>
  if id = "A" then
    some { trimStart := some 2, trimEnd := some 4, duration := some 5 }
  else none

def demoEditsPingpong : String → Option (ClipEdit ℚ) := fun id =>
  if id = "A" then
    some { trimStart := some 2, trimEnd := some 4, duration := some 5,
           fillMethod := some .pingpong }
  else none

def demoEditsStretch : String → Option (ClipEdit ℚ) := fun id =>
  if id = "A" then
    some { trimStart := some 2, trimEnd := some 4, duration := some 5,
           fillMethod := some .stretch }
  else none

def demoDurs : String → Option ℚ := fun p => if p = "a" then some 10 else none

/-- The segment the resolver produces for the reference clip. -/
def demoSeg : Segment ℚ :=
  ⟨"A", "a", 0, 0, 5, 5, 2, 4, 10, .loop,
   none, none, none, none, none, none, none, 2⟩

/-- The reference clip resolved with `fillMethod = stretch`. -/
def stretchSeg : Segment ℚ :=
  ⟨"A", "a", 0, 0, 5, 5, 2, 4, 10, .stretch,
   none, none, none, none, none, none, none, 2⟩

/-- The reference clip resolved with `fillMethod = pingpong`. -/
def pingpongSeg : Segment ℚ :=
  ⟨"A", "a", 0, 0, 5, 5, 2, 4, 10, .pingpong,
   none, none, none, none, none, none, none, 2⟩

/-- The reference pingpong clip over the reals, for the continuity
statements. -/
def pingpongSegR : Segment ℝ :=
  ⟨"A", "a", 0, 0, 5, 5, 2, 4, 10, .pingpong,
   none, none, none, none, none, none, none, 2⟩

/-- The two-clip audio-clamp scenario: both clips have `duration = 3`,
audio lasts `4`. -/
def clampEdits : String → Option (ClipEdit ℚ) := fun id =>
  if id = "A" then some { duration := some 3 }
  else if id = "B" then some { duration := some 3 }
  else none

-- ## Helper lemmas

theorem editDuration_pos (edit : ClipEdit K) (sourceDuration : K) :
    0 < editDuration edit sourceDuration := by
  unfold editDuration editTrimmedLength
  split
  all_goals exact lt_max_iff.mpr (Or.inl (by norm_num))

theorem effectiveStart_ge (edit : ClipEdit K) (cursor : K) :
    cursor ≤ effectiveStart edit cursor := by
  unfold effectiveStart
  rcases editStartOverride edit with _ | o <;> simp

/-- The per-clip placement facts: the emitted segment starts at or after the
running cursor, its `end` is `start + duration`, the new cursor equals its
`end`, with a limit its `end` never exceeds the limit, and a segment placed
at the limit has zero duration. -/
theorem resolveClip_spec (ids : List String) (ce : String → Option (ClipEdit K))
    (vd : String → Option K) (al : Option K) (path : String) (index : Nat)
    (cursor : K) (hal : ∀ lim, al = some lim → cursor ≤ lim) :
    cursor ≤ (resolveClip ids ce vd al path index cursor).1.start ∧
    0 ≤ (resolveClip ids ce vd al path index cursor).1.duration ∧
    (resolveClip ids ce vd al path index cursor).1.«end» =
      (resolveClip ids ce vd al path index cursor).1.start +
        (resolveClip ids ce vd al path index cursor).1.duration ∧
    (resolveClip ids ce vd al path index cursor).2 =
      (resolveClip ids ce vd al path index cursor).1.«end» ∧
    (∀ lim, al = some lim →
      (resolveClip ids ce vd al path index cursor).1.«end» ≤ lim ∧
      (lim ≤ (resolveClip ids ce vd al path index cursor).1.start →
        (resolveClip ids ce vd al path index cursor).1.start = lim ∧
        (resolveClip ids ce vd al path index cursor).1.duration = 0)) := by
  have hs := effectiveStart_ge ((ce (clipId ids index path)).getD (emptyClipEdit K)) cursor
  have hd := editDuration_pos ((ce (clipId ids index path)).getD (emptyClipEdit K))
    ((vd path).getD 0)
  rcases al with _ | lim
  · simp only [resolveClip, clampToAudio, nextCursor]
    refine ⟨hs, le_of_lt hd, by simp, ?_, by simp⟩
    have : cursor ≤ effectiveStart ((ce (clipId ids index path)).getD (emptyClipEdit K)) cursor +
        editDuration ((ce (clipId ids index path)).getD (emptyClipEdit K)) ((vd path).getD 0) := by
      linarith
    simpa using max_eq_right this
  · have hcl : cursor ≤ lim := hal lim rfl
    simp only [resolveClip, clampToAudio, nextCursor]
    split_ifs with h
    · refine ⟨hcl, le_refl 0, by simp, by simp, ?_⟩
      rintro l ⟨rfl⟩
      exact ⟨by simp, fun _ => ⟨by simp, by simp⟩⟩
    · push_neg at h
      have h1 : min (editDuration ((ce (clipId ids index path)).getD (emptyClipEdit K)) ((vd path).getD 0))
          (max 0 (lim - effectiveStart ((ce (clipId ids index path)).getD (emptyClipEdit K)) cursor)) ≤
          lim - effectiveStart ((ce (clipId ids index path)).getD (emptyClipEdit K)) cursor :=
        le_trans (min_le_right _ _) (max_le (by linarith) le_rfl)
      refine ⟨hs, le_min (le_of_lt hd) (le_max_left 0 _), by simp, ?_, ?_⟩
      · have : effectiveStart ((ce (clipId ids index path)).getD (emptyClipEdit K)) cursor +
            min (editDuration ((ce (clipId ids index path)).getD (emptyClipEdit K)) ((vd path).getD 0))
              (max 0 (lim - effectiveStart ((ce (clipId ids index path)).getD (emptyClipEdit K)) cursor)) ≤ lim := by
          linarith
        simpa using min_eq_right this
      · rintro l ⟨rfl⟩
        exact ⟨by linarith, fun hges => absurd hges (not_le.mpr h)⟩

/-- Placement invariant of the whole resolver loop: every emitted segment
starts at or after the cursor the loop entered with, `end = start +
duration`, the audio limit bounds every `end`, a segment pushed to the limit
has zero duration, and consecutive segments never overlap. -/
theorem clipSegmentsGo_spec (ids : List String) (ce : String → Option (ClipEdit K))
    (vd : String → Option K) (al : Option K) (paths : List String) :
    ∀ (index : Nat) (cursor : K), (∀ lim, al = some lim → cursor ≤ lim) →
    (∀ s ∈ clipSegmentsGo ids ce vd al paths index cursor,
      cursor ≤ s.start ∧ 0 ≤ s.duration ∧ s.«end» = s.start + s.duration ∧
      (∀ lim, al = some lim →
        s.«end» ≤ lim ∧ (lim ≤ s.start → s.start = lim ∧ s.duration = 0))) ∧
    List.Chain' (fun a b => a.«end» ≤ b.start)
      (clipSegmentsGo ids ce vd al paths index cursor) := by
  induction paths with
  | nil => intro index cursor hal; simp [clipSegmentsGo]
  | cons path rest ih =>
    intro index cursor hal
    obtain ⟨h1, h0, h2, h3, h4⟩ := resolveClip_spec ids ce vd al path index cursor hal
    have hcur2 : (resolveClip ids ce vd al path index cursor).2 =
        (resolveClip ids ce vd al path index cursor).1.«end» := h3
    have hal' : ∀ lim, al = some lim →
        (resolveClip ids ce vd al path index cursor).2 ≤ lim := by
      intro lim hl
      rw [hcur2]
      exact (h4 lim hl).1
    obtain ⟨ihall, ihchain⟩ := ih (index + 1)
      (resolveClip ids ce vd al path index cursor).2 hal'
    constructor
    · intro s hsmem
      rcases List.mem_cons.mp hsmem with rfl | hs'
    -- the head segment is the newly resolved clip
      · exact ⟨h1, h0, h2, h4⟩
      · obtain ⟨t1, t0, t2, t3⟩ := ihall s hs'
        refine ⟨?_, t0, t2, t3⟩
        calc cursor ≤ (resolveClip ids ce vd al path index cursor).1.start := h1
          _ ≤ (resolveClip ids ce vd al path index cursor).1.«end» := by
              rw [h2]; linarith
          _ = (resolveClip ids ce vd al path index cursor).2 := hcur2.symm
          _ ≤ s.start := t1
    · rw [clipSegmentsGo]
      refine List.chain'_cons'.mpr ⟨?_, ihchain⟩
      intro b hb
      have hbmem : b ∈ clipSegmentsGo ids ce vd al rest (index + 1)
          (resolveClip ids ce vd al path index cursor).2 :=
        List.mem_of_mem_head? hb
      have := (ihall b hbmem).1
      rw [← hcur2]
      exact this

/-- Without an audio limit and without overrides the resolver cascades:
every segment starts exactly at the previous cursor position. -/
theorem clipSegmentsGo_chainedFrom (ids : List String)
    (ce : String → Option (ClipEdit K)) (vd : String → Option K)
    (hov : ∀ id, ((ce id).getD (emptyClipEdit K)).timelineStart = none)
    (paths : List String) :
    ∀ (index : Nat) (cursor : K),
      ChainedFrom cursor (clipSegmentsGo ids ce vd none paths index cursor) := by
  induction paths with
  | nil => intro index cursor; simp [clipSegmentsGo, ChainedFrom]
  | cons path rest ih =>
    intro index cursor
    have heff : effectiveStart ((ce (clipId ids index path)).getD (emptyClipEdit K)) cursor
        = cursor := by
      unfold effectiveStart editStartOverride
      rw [hov (clipId ids index path)]
      rfl
    rw [clipSegmentsGo]
    have hseg : resolveClip ids ce vd none path index cursor =
        (⟨clipId ids index path, path, index, cursor,
          cursor + editDuration ((ce (clipId ids index path)).getD (emptyClipEdit K)) ((vd path).getD 0),
          editDuration ((ce (clipId ids index path)).getD (emptyClipEdit K)) ((vd path).getD 0),
          editTrimStart ((ce (clipId ids index path)).getD (emptyClipEdit K)),
          editTrimEnd ((ce (clipId ids index path)).getD (emptyClipEdit K)) ((vd path).getD 0),
          (vd path).getD 0,
          ((ce (clipId ids index path)).getD (emptyClipEdit K)).fillMethod.getD .loop,
          ((ce (clipId ids index path)).getD (emptyClipEdit K)).hue,
          ((ce (clipId ids index path)).getD (emptyClipEdit K)).contrast,
          ((ce (clipId ids index path)).getD (emptyClipEdit K)).brightness,
          ((ce (clipId ids index path)).getD (emptyClipEdit K)).rotate,
          ((ce (clipId ids index path)).getD (emptyClipEdit K)).flipH,
          ((ce (clipId ids index path)).getD (emptyClipEdit K)).flipV,
          ((ce (clipId ids index path)).getD (emptyClipEdit K)).invert,
          editTrimmedLength ((ce (clipId ids index path)).getD (emptyClipEdit K)) ((vd path).getD 0)⟩,
         max cursor (cursor + editDuration ((ce (clipId ids index path)).getD (emptyClipEdit K)) ((vd path).getD 0))) := by
      simp only [resolveClip, clampToAudio, nextCursor, heff]
    have hmax : max cursor (cursor + editDuration
        ((ce (clipId ids index path)).getD (emptyClipEdit K)) ((vd path).getD 0)) =
        cursor + editDuration ((ce (clipId ids index path)).getD (emptyClipEdit K)) ((vd path).getD 0) := by
      have := editDuration_pos ((ce (clipId ids index path)).getD (emptyClipEdit K)) ((vd path).getD 0)
      exact max_eq_right (by linarith)
    rw [hseg]
    exact ⟨rfl, rfl, by rw [hmax] at *; exact ih (index + 1) _⟩

theorem ChainedFrom.chain' {c : K} :
    ∀ {l : List (Segment K)}, ChainedFrom c l →
      List.Chain' (fun a b => b.start = a.«end») l := by
  intro l
  induction l generalizing c with
  | nil => intro _; simp
  | cons s rest ih =>
    rintro ⟨_, _, hrest⟩
    refine List.chain'_cons'.mpr ⟨?_, ih hrest⟩
    intro b hb
    rcases rest with _ | ⟨b', rest'⟩
    · simp at hb
    · obtain ⟨hb1, _, _⟩ := hrest
      simp only [List.head?] at hb
      injection hb with hb
      subst hb
      exact hb1

theorem ChainedFrom.last_end {c : K} :
    ∀ {l : List (Segment K)}, ChainedFrom c l →
      ∀ s, l.getLast? = some s → s.«end» = c + (l.map (fun x => x.duration)).sum := by
  intro l
  induction l generalizing c with
  | nil => intro _ s hs; simp at hs
  | cons a rest ih =>
    rintro ⟨ha, hae, hrest⟩ s hs
    rcases rest with _ | ⟨b, rest'⟩
    · simp at hs
      subst hs
      simpa using hae
    · rw [List.getLast?_cons_cons] at hs
      have := ih hrest s hs
      rw [this, hae]
      simp [List.sum_cons]
      ring

/-- On a non-negative dividend and positive divisor the JS remainder is the
mathematical one. -/
theorem jsMod_eq_fmod {a b : K} [FloorRing K] (ha : 0 ≤ a) (hb : 0 < b) :
    jsMod a b = fmod a b := by
  unfold jsMod fmod jsTrunc
  rw [if_pos (div_nonneg ha hb.le)]

theorem ChainedFrom.head_start {c : K} {l : List (Segment K)}
    (h : ChainedFrom c l) : ∀ s, l.head? = some s → s.start = c := by
  intro s hs
  rcases l with _ | ⟨a, rest⟩
  · simp at hs
  · obtain ⟨ha, _, _⟩ := h
    simp only [List.head?] at hs
    injection hs with hs
    subst hs
    exact ha

/-- The resolver never emits overlapping segments, overrides included:
consecutive segments always satisfy `end ≤ start`. -/
theorem clipSegments_no_overlap (paths ids : List String)
    (ce : String → Option (ClipEdit K)) (vd : String → Option K)
    (audioDuration : K) :
    List.Chain' (fun a b => a.«end» ≤ b.start)
      (clipSegments paths ids ce vd audioDuration) := by
  unfold clipSegments
  by_cases had : audioDuration > 0
  · rw [if_pos had]
    refine (clipSegmentsGo_spec ids ce vd (some audioDuration) paths 0 0 ?_).2
    intro lim hl
    injection hl with hl
    subst hl
    exact had.le
  · rw [if_neg had]
    exact (clipSegmentsGo_spec ids ce vd none paths 0 0 (fun lim hl => by cases hl)).2

/-- Defaults used by the resolver for a clip whose id has no edit record
(no audio limit): zero trim start, trim end at the known source duration
(else 0), loop fill, and duration `max(0.05, trimEnd - trimStart)`. -/
theorem clipSegmentsGo_default (ids : List String)
    (ce : String → Option (ClipEdit K)) (vd : String → Option K)
    (paths : List String) :
    ∀ (index : Nat) (cursor : K) (i : ℕ) (s : Segment K),
      (clipSegmentsGo ids ce vd none paths index cursor)[i]? = some s →
      ce s.id = none →
      s.trimStart = 0 ∧ s.sourceDuration = (vd s.path).getD 0 ∧
      s.trimEnd = (if 0 < s.sourceDuration then s.sourceDuration else 0) ∧
      s.fillMethod = .loop ∧
      s.duration = max (1/20) (s.trimEnd - s.trimStart) := by
  induction paths with
  | nil => intro index cursor i s hs _; simp [clipSegmentsGo] at hs
  | cons path rest ih =>
    intro index cursor i s hs hnone
    rw [clipSegmentsGo] at hs
    rcases i with _ | i
    · rw [List.getElem?_cons_zero] at hs
      injection hs with hs
      subst hs
      simp only [resolveClip, clampToAudio] at hnone ⊢
      rw [hnone]
      refine ⟨?_, by simp, ?_, ?_, ?_⟩
      · simp [editTrimStart, emptyClipEdit]
      · simp only [editTrimEnd, emptyClipEdit]
        simp [editTrimStart]
      · simp [emptyClipEdit]
      · simp only [editDuration, editTrimmedLength, emptyClipEdit]
        simp [editTrimStart]
    · rw [List.getElem?_cons_succ] at hs
      exact ih (index + 1) _ i s hs hnone

/-- C2.  For every ordered clip list where no edit carries a
`timelineStartOverride` and no audio limit applies, the resolver cascades:
the first segment starts at 0, each later segment starts exactly at the
previous segment's end, and the last segment's end equals the sum of the
resolved (effective) durations. -/
theorem C2_resolver_monotonicity (paths ids : List String)
    (ce : String → Option (ClipEdit ℚ)) (vd : String → Option ℚ)
    (audioDuration : ℚ)
    (hov : ∀ id, ((ce id).getD (emptyClipEdit ℚ)).timelineStart = none)
    (haud : audioDuration ≤ 0) :
    (∀ s, (clipSegments paths ids ce vd audioDuration).head? = some s →
      s.start = 0) ∧
    List.Chain' (fun a b => b.start = a.«end»)
      (clipSegments paths ids ce vd audioDuration) ∧
    (∀ s, (clipSegments paths ids ce vd audioDuration).getLast? = some s →
      s.«end» =
        ((clipSegments paths ids ce vd audioDuration).map
          (fun x => x.duration)).sum) := by
  have hnil : (if audioDuration > 0 then some audioDuration else none)
      = (none : Option ℚ) := if_neg (not_lt.mpr haud)
  have hch : ChainedFrom 0 (clipSegments paths ids ce vd audioDuration) := by
    unfold clipSegments
    rw [hnil]
    exact clipSegmentsGo_chainedFrom ids ce vd hov paths 0 0
  refine ⟨hch.head_start, hch.chain', ?_⟩
  intro s hs
  simpa using hch.last_end s hs

theorem C2_witness :
    List.Chain' (fun a b => b.start = a.«end»)
      (clipSegments ["a", "b"] ["A", "B"] demoEdits demoDurs (0 : ℚ)) :=
  (C2_resolver_monotonicity ["a", "b"] ["A", "B"] demoEdits demoDurs 0
    (fun id => by by_cases h : id = "A" <;> simp [demoEdits, h, emptyClipEdit])
    (le_refl 0)).2.1

/-- C3.  With an audio duration `L > 0` every resolved segment ends at or
before `L`, a segment whose effective start reaches `L` is emitted at
`start = L` with zero duration, and in the concrete two-clip scenario
(durations 3 and 3, audio 4) the second clip is clamped to `[3, 4]`. -/
theorem C3_audio_clamp (paths ids : List String)
    (ce : String → Option (ClipEdit ℚ)) (vd : String → Option ℚ)
    (L : ℚ) (hL : 0 < L) :
    (∀ s ∈ clipSegments paths ids ce vd L,
      s.«end» ≤ L ∧ (L ≤ s.start → s.start = L ∧ s.duration = 0)) ∧
    (clipSegments ["a", "b"] ["A", "B"] clampEdits (fun _ => none)
        (4 : ℚ)).map (fun s => (s.start, s.«end», s.duration))
      = [(0, 3, 3), (3, 4, 1)] := by
  constructor
  · intro s hsmem
    have hif : (if L > 0 then some L else none) = some L := if_pos hL
    have hsmem' : s ∈ clipSegmentsGo ids ce vd (some L) paths 0 0 := by
      rw [clipSegments, hif] at hsmem
      exact hsmem
    have hal : ∀ lim, (some L : Option ℚ) = some lim → (0:ℚ) ≤ lim := by
      intro lim hl
      injection hl with hl
      subst hl
      exact hL.le
    have h := ((clipSegmentsGo_spec ids ce vd (some L) paths 0 0 hal).1 s hsmem').2.2.2
    exact ⟨(h L rfl).1, fun hge => (h L rfl).2 hge⟩
  · with_unfolding_all rfl

theorem C3_witness :
    (⟨"B", "b", 1, 3, 4, 1, 0, 0, 0, .loop,
      none, none, none, none, none, none, none, 1/20⟩ : Segment ℚ).«end» ≤ 4 := by
  have h := (C3_audio_clamp ["a", "b"] ["A", "B"] clampEdits (fun _ => none) 4
    zero_lt_four).1
  refine (h _ ?_).1
  have hl : clipSegments ["a", "b"] ["A", "B"] clampEdits (fun _ => none) (4:ℚ)
      = [⟨"A", "a", 0, 0, 3, 3, 0, 0, 0, .loop,
          none, none, none, none, none, none, none, 1/20⟩,
         ⟨"B", "b", 1, 3, 4, 1, 0, 0, 0, .loop,
          none, none, none, none, none, none, none, 1/20⟩] := by
    with_unfolding_all rfl
  rw [hl]
  simp

/-- C4 counterexample.  The claim asserts an input exists (an override
earlier than the previous segment's end) making the resolver emit
overlapping segments.  No such input exists: `Math.max(cursor,
startOverride)` clamps every override up to the running cursor, so
consecutive segments never overlap, for any clip list, edit map, durations
and audio duration. -/
theorem C4_counterexample :
    ¬ ∃ (paths ids : List String) (ce : String → Option (ClipEdit ℚ))
        (vd : String → Option ℚ) (ad : ℚ) (i : ℕ) (a b : Segment ℚ),
      (clipSegments paths ids ce vd ad)[i]? = some a ∧
      (clipSegments paths ids ce vd ad)[i + 1]? = some b ∧
      b.start < a.«end» := by
  rintro ⟨paths, ids, ce, vd, ad, i, a, b, ha, hb, hlt⟩
  have hch := clipSegments_no_overlap paths ids ce vd ad
  set l := clipSegments paths ids ce vd ad with hl
  have hb' : i + 1 < l.length := (List.getElem?_eq_some_iff.mp hb).1
  have hrel := List.chain'_iff_get.mp hch i (by omega)
  have hia : l.get ⟨i, by omega⟩ = a := by
    have := (List.getElem?_eq_some_iff.mp ha).2
    simpa [List.get_eq_getElem] using this
  have hib : l.get ⟨i + 1, by omega⟩ = b := by
    have := (List.getElem?_eq_some_iff.mp hb).2
    simpa [List.get_eq_getElem] using this
  rw [hia, hib] at hrel
  exact absurd hrel (not_le.mpr hlt)

/-- C4 (amended).  A `timelineStartOverride` earlier than the running
cursor is ignored (the source takes `Math.max(cursor, startOverride)`), so
overrides cannot produce overlap: for every input, each resolved segment
starts at or after the previous segment's end. -/
theorem C4_no_overlap_amended (paths ids : List String)
    (ce : String → Option (ClipEdit ℚ)) (vd : String → Option ℚ) (ad : ℚ) :
    List.Chain' (fun a b => a.«end» ≤ b.start)
      (clipSegments paths ids ce vd ad) :=
  clipSegments_no_overlap paths ids ce vd ad

/-- C5 counterexample.  A clip with no edit record and unknown source
duration resolves with effective duration `0.05` (the `Math.max(0.05, ·)`
floor), not `trimEnd - trimStart = 0` as the claim states. -/
theorem C5_counterexample :
    (clipSegments ["a"] ["A"] (fun _ => none) (fun _ => none) (0 : ℚ)).map
        (fun s => s.duration) = [1/20] ∧ (1/20 : ℚ) ≠ 0 :=
  ⟨by with_unfolding_all rfl, by norm_num⟩

/-- C5 (amended).  For every clip that has no edit record (no audio
limit): the resolver uses `trimStart = 0`, `trimEnd = sourceDuration` when
known (`> 0`) and `trimStart = 0` otherwise, `fillMethod = loop`, and
`duration = max(0.05, trimEnd - trimStart)`; in particular with unknown
source duration the effective duration is `0.05`. -/
theorem C5_defaults_amended (paths ids : List String)
    (ce : String → Option (ClipEdit ℚ)) (vd : String → Option ℚ)
    (i : ℕ) (s : Segment ℚ)
    (hs : (clipSegments paths ids ce vd 0)[i]? = some s)
    (hnone : ce s.id = none) :
    s.trimStart = 0 ∧ s.sourceDuration = (vd s.path).getD 0 ∧
    s.trimEnd = (if 0 < s.sourceDuration then s.sourceDuration else 0) ∧
    s.fillMethod = .loop ∧
    s.duration = max (1/20) (s.trimEnd - s.trimStart) := by
  have h0 : (if (0:ℚ) > 0 then some (0:ℚ) else none) = (none : Option ℚ) := by
    norm_num
  rw [clipSegments, h0] at hs
  exact clipSegmentsGo_default ids ce vd paths 0 0 i s hs hnone

theorem C5_witness :
    (⟨"A", "a", 0, 0, 1/20, 1/20, 0, 0, 0, .loop,
      none, none, none, none, none, none, none, 1/20⟩ : Segment ℚ).duration
      = max (1/20) ((0:ℚ) - 0) ∧ max (1/20) ((0:ℚ) - 0) = 1/20 := by
  constructor
  · have h := C5_defaults_amended ["a"] ["A"] (fun _ => none) (fun _ => none) 0
      (⟨"A", "a", 0, 0, 1/20, 1/20, 0, 0, 0, .loop,
        none, none, none, none, none, none, none, 1/20⟩ : Segment ℚ)
      (by with_unfolding_all rfl) rfl
    have h5 := h.2.2.2.2
    have h1 := h.1
    have h3 := h.2.2.1
    rw [h1] at h5
    rw [h3] at h5
    simp at h5
    simp [h5]
  · norm_num

theorem resolveActiveClip_eq_find [FloorRing K] (segs : List (Segment K)) (t : K) :
    resolveActiveClip segs t =
      (segs.find? (fun s => decide (s.start ≤ t ∧ t ≤ s.«end»))).map
        (fun s => ⟨s.path, segmentLocalTime s t, s.duration⟩) := by
  induction segs with
  | nil => rfl
  | cons seg rest ih =>
    rw [resolveActiveClip, List.find?_cons]
    by_cases h : seg.start ≤ t ∧ t ≤ seg.«end»
    · simp [h]
    · simp only [if_neg h, ih]
      have : (decide (seg.start ≤ t ∧ t ≤ seg.«end»)) = false := by
        simpa using h
      rw [this]

/-- Under the resolver invariant `trimmedLength = max(0.05, trimEnd -
trimStart)` the mapper's loop length is exactly that value. -/
theorem mapperLoopLen_eq (seg : Segment K)
    (htl : seg.trimmedLength = max (1/20) (seg.trimEnd - seg.trimStart)) :
    mapperLoopLen seg = max (1/20) (seg.trimEnd - seg.trimStart) := by
  have h20 : (0:K) < 1/20 := by norm_num
  have hpos : (0:K) < seg.trimmedLength := by
    rw [htl]
    exact lt_of_lt_of_le h20 (le_max_left _ _)
  unfold mapperLoopLen
  rw [if_pos (ne_of_gt hpos), htl]
  exact max_eq_right (le_max_left _ _)

theorem mapperLoopLen_pos (seg : Segment K) : 0 < mapperLoopLen seg :=
  lt_of_lt_of_le (by norm_num) (le_max_left _ _)

/-- The loop branch of the mapper, in the spec's `rel mod loopLen` form. -/
theorem segmentLocalTime_loop [FloorRing K] (seg : Segment K) (t : K)
    (hm : seg.fillMethod = .loop)
    (htl : seg.trimmedLength = max (1/20) (seg.trimEnd - seg.trimStart))
    (ht : seg.start ≤ t) :
    segmentLocalTime seg t =
      seg.trimStart +
        fmod (t - seg.start) (max (1/20) (seg.trimEnd - seg.trimStart)) := by
  unfold segmentLocalTime
  rw [if_neg (by simp [hm]), if_neg (by simp [hm]),
    if_pos (mapperLoopLen_pos seg)]
  rw [max_eq_right (sub_nonneg.mpr ht), mapperLoopLen_eq seg htl,
    jsMod_eq_fmod (sub_nonneg.mpr ht)
      (lt_of_lt_of_le (by norm_num) (le_max_left _ _))]

/-- The stretch branch of the mapper. -/
theorem segmentLocalTime_stretch [FloorRing K] (seg : Segment K) (t : K)
    (hm : seg.fillMethod = .stretch)
    (htl : seg.trimmedLength = max (1/20) (seg.trimEnd - seg.trimStart))
    (hd : 0 < seg.duration)
    (ht : seg.start ≤ t) :
    segmentLocalTime seg t =
      seg.trimStart + max (1/20) (seg.trimEnd - seg.trimStart) *
        min 1 ((t - seg.start) / seg.duration) := by
  unfold segmentLocalTime
  rw [if_pos ⟨hm, hd, mapperLoopLen_pos seg⟩]
  rw [max_eq_right (sub_nonneg.mpr ht), mapperLoopLen_eq seg htl]

/-- The pingpong branch of the mapper. -/
theorem segmentLocalTime_pingpong [FloorRing K] (seg : Segment K) (t : K)
    (hm : seg.fillMethod = .pingpong) :
    segmentLocalTime seg t =
      seg.trimStart + pingpongOffset (mapperLoopLen seg) (max 0 (t - seg.start)) := by
  unfold segmentLocalTime
  rw [if_neg (by simp [hm]), if_pos ⟨hm, mapperLoopLen_pos seg⟩]

/-- C1.  The playback mapper scans the resolved segments in order; if no
segment's closed interval `[start, end]` contains `t` it returns `none`,
and for the first containing segment with `fillMethod = loop` it returns
that segment's path and `local = trimStart + ((t - start) mod loopLen)`
with `loopLen = max(0.05, trimEnd - trimStart)`. -/
theorem C1_playback_loop_mapping :
    (∀ (segs : List (Segment ℚ)) (t : ℚ),
      (∀ s ∈ segs, ¬(s.start ≤ t ∧ t ≤ s.«end»)) →
      resolveActiveClip segs t = none) ∧
    (∀ (segs : List (Segment ℚ)) (t : ℚ) (s : Segment ℚ),
      segs.find? (fun x => decide (x.start ≤ t ∧ t ≤ x.«end»)) = some s →
      s.fillMethod = .loop →
      s.trimmedLength = max (1/20) (s.trimEnd - s.trimStart) →
      resolveActiveClip segs t =
        some ⟨s.path,
          s.trimStart +
            fmod (t - s.start) (max (1/20) (s.trimEnd - s.trimStart)),
          s.duration⟩) := by
  constructor
  · intro segs t h
    rw [resolveActiveClip_eq_find]
    have : segs.find? (fun x => decide (x.start ≤ t ∧ t ≤ x.«end»)) = none := by
      rw [List.find?_eq_none]
      intro x hx
      simpa using h x hx
    rw [this]
    rfl
  · intro segs t s hf hm htl
    have hst : s.start ≤ t := by
      have := List.find?_some hf
      simp at this
      exact this.1
    rw [resolveActiveClip_eq_find, hf, Option.map_some',
      segmentLocalTime_loop s t hm htl hst]

theorem C1_witness :
    resolveActiveClip (clipSegments ["a"] ["A"] demoEdits demoDurs (0:ℚ))
      (49/10) = some ⟨"a", 29/10, 5⟩ ∧
    resolveActiveClip (clipSegments ["a"] ["A"] demoEdits demoDurs (0:ℚ))
      0 = some ⟨"a", 2, 5⟩ ∧
    resolveActiveClip (clipSegments ["a"] ["A"] demoEdits demoDurs (0:ℚ))
      (3/2) = some ⟨"a", 7/2, 5⟩ ∧
    resolveActiveClip (clipSegments ["a"] ["A"] demoEdits demoDurs (0:ℚ))
      (5/2) = some ⟨"a", 5/2, 5⟩ ∧
    resolveActiveClip (clipSegments ["a"] ["A"] demoEdits demoDurs (0:ℚ))
      6 = none := by
  have hseg : clipSegments ["a"] ["A"] demoEdits demoDurs (0:ℚ) = [demoSeg] := by
    with_unfolding_all rfl
  rw [hseg]
  refine ⟨?_, ?_, ?_, ?_, ?_⟩
  · rw [C1_playback_loop_mapping.2 [demoSeg] (49/10) demoSeg
      (by with_unfolding_all rfl) rfl (by with_unfolding_all rfl)]
    with_unfolding_all rfl
  · rw [C1_playback_loop_mapping.2 [demoSeg] 0 demoSeg
      (by with_unfolding_all rfl) rfl (by with_unfolding_all rfl)]
    with_unfolding_all rfl
  · rw [C1_playback_loop_mapping.2 [demoSeg] (3/2) demoSeg
      (by with_unfolding_all rfl) rfl (by with_unfolding_all rfl)]
    with_unfolding_all rfl
  · rw [C1_playback_loop_mapping.2 [demoSeg] (5/2) demoSeg
      (by with_unfolding_all rfl) rfl (by with_unfolding_all rfl)]
    with_unfolding_all rfl
  · refine C1_playback_loop_mapping.1 [demoSeg] 6 ?_
    intro x hx
    rw [List.mem_singleton] at hx
    subst hx
    norm_num [demoSeg]

/-- C6.  For a `stretch` segment satisfying the global constraints
(`trimEnd - trimStart ≥ 0.05`, `duration > 0`), the mapper computes
`local = trimStart + loopLen * min(1, rel / duration)` with
`loopLen = trimEnd - trimStart`, and at the boundaries
`local(rel = 0) = trimStart` and `local(rel = duration) = trimEnd`
exactly. -/
theorem C6_stretch_boundary (seg : Segment ℚ) (rest : List (Segment ℚ))
    (hm : seg.fillMethod = .stretch)
    (htl : seg.trimmedLength = max (1/20) (seg.trimEnd - seg.trimStart))
    (hspan : 1/20 ≤ seg.trimEnd - seg.trimStart)
    (hd : 0 < seg.duration)
    (he : seg.«end» = seg.start + seg.duration) :
    (∀ t, seg.start ≤ t → t ≤ seg.«end» →
      resolveActiveClip (seg :: rest) t =
        some ⟨seg.path,
          seg.trimStart + (seg.trimEnd - seg.trimStart) *
            min 1 ((t - seg.start) / seg.duration),
          seg.duration⟩) ∧
    resolveActiveClip (seg :: rest) seg.start =
      some ⟨seg.path, seg.trimStart, seg.duration⟩ ∧
    resolveActiveClip (seg :: rest) (seg.start + seg.duration) =
      some ⟨seg.path, seg.trimEnd, seg.duration⟩ := by
  have hmax : max (1/20) (seg.trimEnd - seg.trimStart)
      = seg.trimEnd - seg.trimStart := max_eq_right hspan
  have hgen : ∀ t, seg.start ≤ t → t ≤ seg.«end» →
      resolveActiveClip (seg :: rest) t =
        some ⟨seg.path,
          seg.trimStart + (seg.trimEnd - seg.trimStart) *
            min 1 ((t - seg.start) / seg.duration),
          seg.duration⟩ := by
    intro t h1 h2
    rw [resolveActiveClip, if_pos ⟨h1, h2⟩,
      segmentLocalTime_stretch seg t hm htl hd h1, hmax]
  refine ⟨hgen, ?_, ?_⟩
  · rw [hgen seg.start le_rfl (by rw [he]; linarith)]
    norm_num
  · rw [hgen (seg.start + seg.duration) (by linarith) (le_of_eq he.symm)]
    rw [add_sub_cancel_left, div_self (ne_of_gt hd)]
    norm_num

theorem C6_witness :
    resolveActiveClip [stretchSeg] (5 : ℚ) = some ⟨"a", 4, 5⟩ ∧
    resolveActiveClip [stretchSeg] (0 : ℚ) = some ⟨"a", 2, 5⟩ := by
  have h := C6_stretch_boundary stretchSeg []
    rfl (by norm_num [stretchSeg]) (by norm_num [stretchSeg])
    (by norm_num [stretchSeg]) (by norm_num [stretchSeg])
  constructor
  · have h2 := h.2.2
    norm_num [stretchSeg] at h2
    convert h2 using 2
  · have h1 := h.2.1
    norm_num [stretchSeg] at h1
    convert h1 using 2

theorem jsMod_eq_self_of_lt [FloorRing K] {a b : K} (h0 : 0 ≤ a) (hb : a < b) :
    jsMod a b = a := by
  have hbpos : 0 < b := lt_of_le_of_lt h0 hb
  have hfloor : ⌊a / b⌋ = 0 := by
    rw [Int.floor_eq_zero_iff]
    constructor
    · exact div_nonneg h0 hbpos.le
    · rw [div_lt_one hbpos] at *
      simpa using hb
  unfold jsMod jsTrunc
  rw [if_pos (div_nonneg h0 hbpos.le), hfloor]
  ring

theorem jsMod_of_neg [FloorRing K] {a b : K} (h1 : -b < a) (h2 : a < 0)
    (hb : 0 < b) : jsMod a b = a := by
  have hceil : ⌈a / b⌉ = 0 := by
    rw [Int.ceil_eq_zero_iff, Set.mem_Ioc]
    constructor
    · rw [lt_div_iff₀ hb]
      linarith
    · exact le_of_lt (div_neg_of_neg_of_pos h2 hb)
  unfold jsMod jsTrunc
  rw [if_neg (not_le.mpr (div_neg_of_neg_of_pos h2 hb)), hceil]
  ring

theorem jsMod_shift [FloorRing K] {a b : K} (hb : 0 < b) (h1 : b ≤ a)
    (h2 : a < 2 * b) : jsMod a b = a - b := by
  have hfloor : ⌊a / b⌋ = 1 := by
    rw [Int.floor_eq_iff]
    constructor
    · push_cast
      rw [le_div_iff₀ hb]
      linarith
    · push_cast
      rw [div_lt_iff₀ hb]
      linarith
  unfold jsMod jsTrunc
  rw [if_pos (div_nonneg (le_trans hb.le h1) hb.le), hfloor]
  ring

/-- On `(-loopLen*2, loopLen]` the pingpong offset is the identity (the
forward half, including the clamped negative side). -/
theorem pingpongOffset_eq_self [FloorRing K] {L r : K} (hL : 0 < L)
    (h1 : -(L * 2) < r) (h2 : r ≤ L) : pingpongOffset L r = r := by
  have hper : (0:K) < L * 2 := by linarith
  have hphase : jsMod r (L * 2) = r := by
    rcases le_or_lt 0 r with hr | hr
    · exact jsMod_eq_self_of_lt hr (by linarith)
    · exact jsMod_of_neg (by linarith) hr hper
  simp only [pingpongOffset]
  rw [if_pos hper, hphase, if_pos h2]

/-- On `(loopLen, loopLen*2)` the pingpong offset plays backward:
`period - phase`. -/
theorem pingpongOffset_eq_rev [FloorRing K] {L r : K} (hL : 0 < L)
    (h1 : L < r) (h2 : r < L * 2) : pingpongOffset L r = L * 2 - r := by
  have hper : (0:K) < L * 2 := by linarith
  have hphase : jsMod r (L * 2) = r :=
    jsMod_eq_self_of_lt (by linarith) h2
  simp only [pingpongOffset]
  rw [if_pos hper, hphase, if_neg (not_le.mpr h1)]

/-- On `[loopLen*2, loopLen*3)` the pingpong offset has wrapped once and
plays forward again. -/
theorem pingpongOffset_eq_shift [FloorRing K] {L r : K} (hL : 0 < L)
    (h1 : L * 2 ≤ r) (h2 : r < L * 2 + L) :
    pingpongOffset L r = r - L * 2 := by
  have hper : (0:K) < L * 2 := by linarith
  have hphase : jsMod r (L * 2) = r - L * 2 :=
    jsMod_shift hper h1 (by linarith)
  simp only [pingpongOffset]
  rw [if_pos hper, hphase, if_pos (by linarith)]

/-- Continuity of the pingpong local-time map at the turn point
`rel = loopLen`. -/
theorem pingpongMap_continuousAt_turn (c a L : ℝ) (hL : 0 < L) :
    ContinuousAt (fun t : ℝ => c + pingpongOffset L (max 0 (t - a))) (a + L) := by
  have hg : Continuous fun t : ℝ => c + min (t - a) (L * 2 - (t - a)) :=
    continuous_const.add ((continuous_id.sub continuous_const).min
      (continuous_const.sub (continuous_id.sub continuous_const)))
  refine hg.continuousAt.congr ?_
  refine Filter.eventuallyEq_of_mem
    (Ioo_mem_nhds (a := a) (b := a + L * 2) (by linarith) (by linarith)) ?_
  intro t ht
  obtain ⟨ht1, ht2⟩ := ht
  have hr1 : (0:ℝ) < t - a := by linarith
  have hr2 : t - a < L * 2 := by linarith
  simp only []
  rw [max_eq_right hr1.le]
  by_cases hr : t - a ≤ L
  · rw [pingpongOffset_eq_self hL (by linarith) hr, min_eq_left (by linarith)]
  · push_neg at hr
    rw [pingpongOffset_eq_rev hL hr hr2, min_eq_right (by linarith)]

/-- Continuity of the pingpong local-time map at `rel = 0`. -/
theorem pingpongMap_continuousAt_zero (c a L : ℝ) (hL : 0 < L) :
    ContinuousAt (fun t : ℝ => c + pingpongOffset L (max 0 (t - a))) a := by
  have hg : Continuous fun t : ℝ => c + max 0 (t - a) :=
    continuous_const.add (continuous_const.max (continuous_id.sub continuous_const))
  refine hg.continuousAt.congr ?_
  refine Filter.eventuallyEq_of_mem
    (Ioo_mem_nhds (a := a - L) (b := a + L) (by linarith) (by linarith)) ?_
  intro t ht
  obtain ⟨ht1, ht2⟩ := ht
  have hm0 : (0:ℝ) ≤ max 0 (t - a) := le_max_left 0 _
  have hmL : max 0 (t - a) ≤ L := max_le hL.le (by linarith)
  simp only []
  rw [pingpongOffset_eq_self hL (by linarith) hmL]

/-- Continuity of the pingpong local-time map at the wrap point
`rel = period = loopLen*2`. -/
theorem pingpongMap_continuousAt_wrap (c a L : ℝ) (hL : 0 < L) :
    ContinuousAt (fun t : ℝ => c + pingpongOffset L (max 0 (t - a)))
      (a + L * 2) := by
  have hg : Continuous fun t : ℝ => c + |t - a - L * 2| :=
    continuous_const.add ((continuous_id.sub continuous_const).sub
      continuous_const).abs
  refine hg.continuousAt.congr ?_
  refine Filter.eventuallyEq_of_mem
    (Ioo_mem_nhds (a := a + L) (b := a + L * 2 + L) (by linarith) (by linarith)) ?_
  intro t ht
  obtain ⟨ht1, ht2⟩ := ht
  have hr1 : L < t - a := by linarith
  have hr3 : t - a < L * 2 + L := by linarith
  simp only []
  rw [max_eq_right (by linarith : (0:ℝ) ≤ t - a)]
  by_cases hr : t - a < L * 2
  · rw [pingpongOffset_eq_rev hL hr1 hr, abs_of_neg (by linarith : t - a - L * 2 < 0)]
    ring
  · push_neg at hr
    rw [pingpongOffset_eq_shift hL hr hr3,
      abs_of_nonneg (by linarith : (0:ℝ) ≤ t - a - L * 2)]

/-- The pingpong offset in the spec's `phase = rel mod period` form, on a
non-negative `rel`. -/
theorem pingpongOffset_fmod [FloorRing K] {L r : K} (hL : 0 < L) (hr : 0 ≤ r) :
    pingpongOffset L r =
      if fmod r (L * 2) ≤ L then fmod r (L * 2)
      else L * 2 - fmod r (L * 2) := by
  simp only [pingpongOffset]
  rw [if_pos (by linarith : (0:K) < L * 2), jsMod_eq_fmod hr (by linarith)]

/-- C7.  For a `pingpong` segment the mapper computes `local = trimStart +
(phase if phase ≤ loopLen else period - phase)` with `period = loopLen * 2`
and `phase = rel mod period`; this mapping is continuous in `t` at
`rel = loopLen`, at `rel = 0`, and at `rel = period`; and the reference
clip maps `t = 2, 3, 4, 5` to local times `4, 3, 2, 3`. -/
theorem C7_pingpong :
    (∀ (seg : Segment ℝ) (rest : List (Segment ℝ)) (t : ℝ),
      seg.fillMethod = .pingpong →
      seg.trimmedLength = max (1/20) (seg.trimEnd - seg.trimStart) →
      seg.start ≤ t → t ≤ seg.«end» →
      resolveActiveClip (seg :: rest) t =
        some ⟨seg.path,
          seg.trimStart +
            (if fmod (t - seg.start)
                  (max (1/20) (seg.trimEnd - seg.trimStart) * 2)
                ≤ max (1/20) (seg.trimEnd - seg.trimStart) then
              fmod (t - seg.start)
                (max (1/20) (seg.trimEnd - seg.trimStart) * 2)
            else
              max (1/20) (seg.trimEnd - seg.trimStart) * 2 -
                fmod (t - seg.start)
                  (max (1/20) (seg.trimEnd - seg.trimStart) * 2)),
          seg.duration⟩) ∧
    (∀ seg : Segment ℝ,
      seg.fillMethod = .pingpong →
      seg.trimmedLength = max (1/20) (seg.trimEnd - seg.trimStart) →
      ContinuousAt (segmentLocalTime seg)
        (seg.start + max (1/20) (seg.trimEnd - seg.trimStart)) ∧
      ContinuousAt (segmentLocalTime seg) seg.start ∧
      ContinuousAt (segmentLocalTime seg)
        (seg.start + max (1/20) (seg.trimEnd - seg.trimStart) * 2)) ∧
    (resolveActiveClip [pingpongSeg] (2 : ℚ) = some ⟨"a", 4, 5⟩ ∧
     resolveActiveClip [pingpongSeg] (3 : ℚ) = some ⟨"a", 3, 5⟩ ∧
     resolveActiveClip [pingpongSeg] (4 : ℚ) = some ⟨"a", 2, 5⟩ ∧
     resolveActiveClip [pingpongSeg] (5 : ℚ) = some ⟨"a", 3, 5⟩) := by
  have hLpos : ∀ x y : ℝ, (0:ℝ) < max (1/20) (x - y) :=
    fun x y => lt_of_lt_of_le (by norm_num) (le_max_left _ _)
  refine ⟨?_, ?_, ?_, ?_, ?_, ?_⟩
  · intro seg rest t hm htl h1 h2
    rw [resolveActiveClip, if_pos ⟨h1, h2⟩, segmentLocalTime_pingpong seg t hm,
      mapperLoopLen_eq seg htl, max_eq_right (sub_nonneg.mpr h1),
      pingpongOffset_fmod (hLpos _ _) (sub_nonneg.mpr h1)]
  · intro seg hm htl
    have hfun : (fun t : ℝ => seg.trimStart +
        pingpongOffset (max (1/20) (seg.trimEnd - seg.trimStart))
          (max 0 (t - seg.start))) = segmentLocalTime seg := by
      funext t
      rw [segmentLocalTime_pingpong seg t hm, mapperLoopLen_eq seg htl]
    refine ⟨?_, ?_, ?_⟩
    · have h := pingpongMap_continuousAt_turn seg.trimStart seg.start
        (max (1/20) (seg.trimEnd - seg.trimStart)) (hLpos _ _)
      rwa [hfun] at h
    · have h := pingpongMap_continuousAt_zero seg.trimStart seg.start
        (max (1/20) (seg.trimEnd - seg.trimStart)) (hLpos _ _)
      rwa [hfun] at h
    · have h := pingpongMap_continuousAt_wrap seg.trimStart seg.start
        (max (1/20) (seg.trimEnd - seg.trimStart)) (hLpos _ _)
      rwa [hfun] at h
  · with_unfolding_all rfl
  · with_unfolding_all rfl
  · with_unfolding_all rfl
  · with_unfolding_all rfl

theorem C7_witness :
    resolveActiveClip [pingpongSegR] (3 : ℝ) = some ⟨"a", 3, 5⟩ ∧
    ContinuousAt (segmentLocalTime pingpongSegR) 2 := by
  constructor
  · have h := C7_pingpong.1 pingpongSegR [] 3 rfl
      (by norm_num [pingpongSegR]) (by norm_num [pingpongSegR])
      (by norm_num [pingpongSegR])
    rw [h]
    norm_num [pingpongSegR, fmod]
  · have h := (C7_pingpong.2.1 pingpongSegR rfl (by norm_num [pingpongSegR])).1
    norm_num [pingpongSegR] at h
    exact h

theorem jsMax_zero_cases (x : JNum) :
    jsMax (.num 0) x = .nan ∨ jsMax (.num 0) x = .posInf ∨
    ∃ m : ℚ, 0 ≤ m ∧ jsMax (.num 0) x = .num m := by
  rcases x with _ | _ | _ | q
  · left; rfl
  · right; left; rfl
  · right; right; exact ⟨0, le_refl 0, rfl⟩
  · right; right
    by_cases h : (0:ℚ) < q
    · exact ⟨q, h.le, by simp [jsMax, jsLt, JNum.isNaN, h]⟩
    · exact ⟨0, le_refl 0, by simp [jsMax, jsLt, JNum.isNaN, h]⟩

/-- The shape of the shared audio-limit bound: `+∞`, `NaN` (only from
`∞ - ∞`), or a non-negative finite value. -/
theorem durationMaxLimit_cases (ad : JNum) (st : Option JNum) :
    durationMaxLimit ad st = .posInf ∨ durationMaxLimit ad st = .nan ∨
    ∃ m : ℚ, 0 ≤ m ∧ durationMaxLimit ad st = .num m := by
  unfold durationMaxLimit
  split_ifs with h
  · rcases jsMax_zero_cases (jsSub ad (st.getD .nan)) with h1 | h1 | ⟨m, hm, h1⟩
    · right; left; exact h1
    · left; exact h1
    · right; right; exact ⟨m, hm, h1⟩
  · left; rfl

theorem jsMax_num_num (p q : ℚ) :
    jsMax (.num p) (.num q) = .num (max p q) := by
  by_cases h : p < q
  · have hx : max p q = q := max_eq_right h.le
    simp [jsMax, jsLt, JNum.isNaN, h, hx]
  · have hx : max p q = p := max_eq_left (not_lt.mp h)
    simp [jsMax, jsLt, JNum.isNaN, h, hx]

theorem jsMin_num_num (p q : ℚ) :
    jsMin (.num p) (.num q) = .num (min p q) := by
  by_cases h : q < p
  · have hx : min p q = q := min_eq_right h.le
    simp [jsMin, jsLt, JNum.isNaN, h, hx]
  · have hx : min p q = p := min_eq_left (not_lt.mp h)
    simp [jsMin, jsLt, JNum.isNaN, h, hx]

theorem jsMin_num_posInf (p : ℚ) : jsMin (.num p) .posInf = .num p := rfl

theorem jsMax_num_posInf (p : ℚ) : jsMax (.num p) .posInf = .posInf := rfl

theorem jsMax_num_negInf (p : ℚ) : jsMax (.num p) .negInf = .num p := rfl

theorem jsMin_num_negInf (p : ℚ) : jsMin (.num p) .negInf = .negInf := rfl

theorem jsMin_negInf_num (p : ℚ) : jsMin .negInf (.num p) = .negInf := rfl

theorem jsMin_negInf_posInf : jsMin .negInf .posInf = .negInf := rfl

theorem jsMin_nan_right (x : JNum) : jsMin x .nan = .nan := by
  rcases x <;> rfl

theorem jsMin_posInf_right (x : JNum) : jsMin x .posInf = x := by
  rcases x <;> rfl

theorem jsMin_posInf_left (x : JNum) : jsMin .posInf x = x := by
  rcases x <;> rfl

theorem jsMax_num_absorb (c : ℚ) (d : JNum) :
    jsMax (.num c) (jsMax (.num c) d) = jsMax (.num c) d := by
  rcases d with _ | _ | _ | q
  · rfl
  · rfl
  · rw [jsMax_num_negInf, jsMax_num_num, max_self]
  · rw [jsMax_num_num, jsMax_num_num, ← max_assoc, max_self]

theorem durIdem_num_nan (c m : ℚ) :
    jsMin (jsMax (.num c) (jsMin (jsMax (.num c) .nan) (.num m))) (.num m)
      = jsMin (jsMax (.num c) .nan) (.num m) := rfl

theorem durIdem_num_posInf (c m : ℚ) :
    jsMin (jsMax (.num c) (jsMin (jsMax (.num c) .posInf) (.num m))) (.num m)
      = jsMin (jsMax (.num c) .posInf) (.num m) := by
  rw [jsMax_num_posInf, jsMin_posInf_left, jsMax_num_num, jsMin_num_num]
  congr 1
  rw [min_eq_right (le_max_right c m)]

theorem durIdem_num_negInf (c m : ℚ) :
    jsMin (jsMax (.num c) (jsMin (jsMax (.num c) .negInf) (.num m))) (.num m)
      = jsMin (jsMax (.num c) .negInf) (.num m) := by
  rw [jsMax_num_negInf, jsMin_num_num, jsMax_num_num, jsMin_num_num]
  congr 1
  rw [max_eq_left (min_le_left c m)]

theorem durIdem_num_num (c m q : ℚ) :
    jsMin (jsMax (.num c) (jsMin (jsMax (.num c) (.num q)) (.num m))) (.num m)
      = jsMin (jsMax (.num c) (.num q)) (.num m) := by
  rw [jsMax_num_num, jsMin_num_num, jsMax_num_num, jsMin_num_num]
  congr 1
  rcases le_total (max c q) m with h | h
  · rw [min_eq_left h, ← max_assoc, max_self, min_eq_left h]
  · rw [min_eq_right h, min_eq_right (le_max_right c m)]

theorem trimIdem_nan (s : JNum) :
    jsMax (.num 0) (jsMin .nan (jsMax (.num 0)
      (jsMax (.num 0) (jsMin .nan (jsMax (.num 0) s)))))
    = jsMax (.num 0) (jsMin .nan (jsMax (.num 0) s)) := rfl

theorem trimIdem_posInf (s : JNum) :
    jsMax (.num 0) (jsMin .posInf (jsMax (.num 0)
      (jsMax (.num 0) (jsMin .posInf (jsMax (.num 0) s)))))
    = jsMax (.num 0) (jsMin .posInf (jsMax (.num 0) s)) := by
  rw [jsMin_posInf_left, jsMin_posInf_left, jsMax_num_absorb, jsMax_num_absorb]

theorem trimIdem_negInf (s : JNum) :
    jsMax (.num 0) (jsMin .negInf (jsMax (.num 0)
      (jsMax (.num 0) (jsMin .negInf (jsMax (.num 0) s)))))
    = jsMax (.num 0) (jsMin .negInf (jsMax (.num 0) s)) := by
  rcases s with _ | _ | _ | q <;>
    first
      | rfl
      | simp only [jsMax_num_num, jsMin_negInf_num, jsMax_num_negInf,
          jsMax_num_posInf, jsMin_negInf_posInf]

theorem trimIdem_num (m : ℚ) (s : JNum) :
    jsMax (.num 0) (jsMin (.num m) (jsMax (.num 0)
      (jsMax (.num 0) (jsMin (.num m) (jsMax (.num 0) s)))))
    = jsMax (.num 0) (jsMin (.num m) (jsMax (.num 0) s)) := by
  rcases s with _ | _ | _ | q <;>
    first
      | rfl
      | (simp only [jsMax_num_num, jsMin_num_num, jsMax_num_posInf,
           jsMin_num_posInf, jsMax_num_negInf, jsMin_num_negInf,
           JNum.num.injEq]
         simp only [min_def, max_def]
         split_ifs <;> first | rfl | linarith)

/-- Idempotence of the duration clamp
`Math.min(Math.max(0.05, d), maxDuration)` for a fixed segment context. -/
theorem clampDurationEdit_idem (ad : JNum) (st : Option JNum) (d : JNum) :
    clampDurationEdit ad st (clampDurationEdit ad st d)
      = clampDurationEdit ad st d := by
  unfold clampDurationEdit
  rcases durationMaxLimit_cases ad st with hM | hM | ⟨m, hm, hM⟩ <;> rw [hM]
  · rw [jsMin_posInf_right, jsMin_posInf_right, jsMax_num_absorb]
  · rw [jsMin_nan_right, jsMin_nan_right]
  · rcases d with _ | _ | _ | q
    · exact durIdem_num_nan _ _
    · exact durIdem_num_posInf _ _
    · exact durIdem_num_negInf _ _
    · exact durIdem_num_num _ _ _

/-- Idempotence of the trim-start clamp
`Math.max(0, Math.min(maxEnd - 0.05, Math.max(0, s)))` for a fixed segment
context. -/
theorem clampTrimStartEdit_idem (maxEnd : JNum) (s : JNum) :
    clampTrimStartEdit maxEnd (clampTrimStartEdit maxEnd s)
      = clampTrimStartEdit maxEnd s := by
  unfold clampTrimStartEdit
  generalize jsSub maxEnd (.num (1/20)) = M
  rcases M with _ | _ | _ | m
  · exact trimIdem_nan _
  · exact trimIdem_posInf _
  · exact trimIdem_negInf _
  · exact trimIdem_num _ _

/-- C8.  The numeric-edit clamp entrypoints are idempotent: for every input
value — negative numbers and `NaN` included — re-applying the clamp to the
stored result leaves it unchanged, both for the trim-start-plus-duration
entrypoint (`applyTrimEdit`) and the duration-only entrypoint
(`applyDurationEdit`). -/
theorem C8_clamp_idempotent (maxEnd audioDuration : JNum)
    (segStart : Option JNum) (trimStart duration : JNum) :
    applyTrimEditValues maxEnd audioDuration segStart
        (applyTrimEditValues maxEnd audioDuration segStart trimStart duration).1
        (applyTrimEditValues maxEnd audioDuration segStart trimStart duration).2
      = applyTrimEditValues maxEnd audioDuration segStart trimStart duration ∧
    applyDurationEditValue audioDuration segStart
        (applyDurationEditValue audioDuration segStart duration)
      = applyDurationEditValue audioDuration segStart duration := by
  constructor
  · unfold applyTrimEditValues
    simp only
    rw [clampTrimStartEdit_idem, clampDurationEdit_idem]
  · exact clampDurationEdit_idem audioDuration segStart duration

theorem previewStep_inv (s : PreviewState) (e : PreviewEvent)
    (hs : PreviewInv s) (hc : e = .complete → s.busy = true) :
    PreviewInv (previewStep s e) := by
  obtain ⟨h1, h2⟩ := hs
  cases e
  · unfold previewStep requestFrame
    by_cases hb : s.busy
    · rw [if_pos hb]
      exact ⟨by simpa [hb] using h1, fun _ => hb⟩
    · rw [if_neg hb]
      refine ⟨by simp [hb] at h1; simp [h1], fun _ => rfl⟩
  · have hb : s.busy = true := hc rfl
    unfold previewStep completeFrame
    simp only
    by_cases hq : s.queued
    · rw [if_pos hq]
      unfold requestFrame
      simp only [if_neg (by simp : ¬ (false = true))]
      rw [hb] at h1
      simp [PreviewInv, h1]
    · rw [if_neg hq]
      simp [PreviewInv, h1, hb]

theorem previewRun_inv (events : List PreviewEvent) :
    ∀ s : PreviewState, PreviewInv s → ValidTrace s events →
      PreviewInv (previewRun s events) := by
  induction events with
  | nil => intro s hs _; exact hs
  | cons e es ih =>
    intro s hs hv
    exact ih (previewStep s e) (previewStep_inv s e hs hv.1) hv.2

theorem iterate_requestFrame_busy (s : PreviewState) (h : s.busy = true) :
    ∀ k : ℕ, requestFrame^[k + 1] s = { s with queued := true } := by
  intro k
  induction k with
  | zero =>
    rw [Function.iterate_succ_apply, Function.iterate_zero_apply]
    unfold requestFrame
    rw [if_pos h]
  | succ k ihk =>
    rw [Function.iterate_succ_apply' , ihk]
    unfold requestFrame
    rw [if_pos (by simpa using h)]

/-- C9.  Frame coalescing: requests arriving while a render is in flight
collapse into the single `previewQueuedRef` flag (any `k ≥ 1` of them
produce the same state and start no render), the queued request is
re-issued exactly once after the in-flight render completes (the total
started count grows by exactly one — never zero, never two), and along any
valid event trace at most one frame render is ever running. -/
theorem C9_frame_coalescing :
    (∀ events : List PreviewEvent, ValidTrace previewInit events →
      (previewRun previewInit events).running ≤ 1) ∧
    (∀ (s : PreviewState) (k : ℕ),
      s.busy = true → s.queued = false → s.running = 1 →
      (requestFrame^[k + 1] s) = { s with queued := true } ∧
      (requestFrame^[k + 1] s).started = s.started ∧
      (completeFrame (requestFrame^[k + 1] s)).started = s.started + 1 ∧
      (completeFrame (requestFrame^[k + 1] s)).busy = true ∧
      (completeFrame (requestFrame^[k + 1] s)).queued = false ∧
      (completeFrame (requestFrame^[k + 1] s)).running = 1) ∧
    (∀ s : PreviewState, s.queued = false →
      (completeFrame s).started = s.started ∧ (completeFrame s).busy = false) := by
  refine ⟨?_, ?_, ?_⟩
  · intro events hv
    have hinv : PreviewInv (previewRun previewInit events) :=
      previewRun_inv events previewInit ⟨rfl, fun h => by cases h⟩ hv
    rw [hinv.1]
    split <;> norm_num
  · intro s k hb hq hr
    have hit := iterate_requestFrame_busy s hb k
    refine ⟨hit, by rw [hit], ?_, ?_, ?_, ?_⟩ <;>
      rw [hit] <;>
      unfold completeFrame requestFrame <;>
      simp [hq, hr, hb]
  · intro s hq
    unfold completeFrame
    rw [if_neg (by simp [hq])]
    exact ⟨rfl, rfl⟩

theorem C9_witness :
    (previewRun previewInit
      [.request, .request, .request, .complete]).running ≤ 1 ∧
    (requestFrame^[2] (⟨true, false, 1, 1⟩ : PreviewState)).started = 1 ∧
    (completeFrame (requestFrame^[2] (⟨true, false, 1, 1⟩ : PreviewState))).started = 2 := by
  refine ⟨?_, ?_, ?_⟩
  · refine C9_frame_coalescing.1 [.request, .request, .request, .complete] ?_
    simp [ValidTrace, previewStep, requestFrame, completeFrame, previewInit]
  · exact (C9_frame_coalescing.2.1 ⟨true, false, 1, 1⟩ 1 rfl rfl rfl).2.1
  · exact (C9_frame_coalescing.2.1 ⟨true, false, 1, 1⟩ 1 rfl rfl rfl).2.2.1

/-- C10.  Particle tick: while playback is paused (`isActive = false`) the
elapsed step is `dt = 0` and a tick leaves every particle unchanged; while
active, `dt = min(0.05, elapsed seconds)`; with `dt > 0` each particle
advances along `direction + angleOffset` at `baseSpeed * speedScale *
(1 + audioAmplitude if audioResponsive else 1)`, and each coordinate wraps
toroidally (the result differs from the unwrapped position by a multiple of
the box size and stays inside the box) rather than bouncing. -/
theorem C10_particle_tick :
    (∀ (direction baseSpeed audioAmplitude nowMs lastTime drawW drawH : ℝ)
       (audioResponsive : Bool) (ps : List Particle),
      tickParticles direction baseSpeed audioResponsive audioAmplitude false
        nowMs lastTime drawW drawH ps = ps) ∧
    (∀ nowMs lastTime : ℝ, particleDt false nowMs lastTime = 0) ∧
    (∀ e lastTime : ℝ,
      particleDt true (lastTime + 1000 * e) lastTime = min (1/20) e) ∧
    (∀ (direction baseSpeed speedScale dt drawW drawH : ℝ) (p : Particle),
      0 < dt →
      (advanceParticle direction baseSpeed speedScale dt drawW drawH p).x =
        wrapCoord (p.x + Real.cos (direction + p.angleOffset) *
          (baseSpeed * p.speedScale * speedScale) * dt) drawW ∧
      (advanceParticle direction baseSpeed speedScale dt drawW drawH p).y =
        wrapCoord (p.y + Real.sin (direction + p.angleOffset) *
          (baseSpeed * p.speedScale * speedScale) * dt) drawH) ∧
    (∀ amp : ℝ, layerSpeedScale true amp = 1 + amp ∧
      layerSpeedScale false amp = 1) ∧
    (∀ v limit : ℝ, wrapCoord v limit = v ∨ wrapCoord v limit = v + limit ∨
      wrapCoord v limit = v - limit) ∧
    (∀ v limit : ℝ, 0 ≤ limit → -limit ≤ v → v ≤ 2 * limit →
      0 ≤ wrapCoord v limit ∧ wrapCoord v limit ≤ limit) := by
  refine ⟨?_, ?_, ?_, ?_, ?_, ?_, ?_⟩
  · intro direction baseSpeed audioAmplitude nowMs lastTime drawW drawH
      audioResponsive ps
    unfold tickParticles particleDt advanceParticle
    simp
  · intro nowMs lastTime
    rfl
  · intro e lastTime
    unfold particleDt
    rw [if_pos rfl, add_sub_cancel_left]
    congr 1
    field_simp
  · intro direction baseSpeed speedScale dt drawW drawH p h
    unfold advanceParticle
    rw [if_pos h]
    exact ⟨rfl, rfl⟩
  · intro amp
    exact ⟨rfl, rfl⟩
  · intro v limit
    simp only [wrapCoord]
    split_ifs
    · left; ring
    · right; left; rfl
    · right; right; rfl
    · left; rfl
  · intro v limit h0 h1 h2
    simp only [wrapCoord]
    split_ifs <;> constructor <;> linarith

theorem C10_witness :
    (advanceParticle 0 60 1 (1/100) 100 100
        ⟨5, 7, 2, 1, 0, 1⟩ : Particle).x =
      wrapCoord (5 + Real.cos (0 + 0) * (60 * 1 * 1) * (1/100)) 100 ∧
    (0 ≤ wrapCoord (17/10 : ℝ) 100 ∧ wrapCoord (17/10 : ℝ) 100 ≤ 100) := by
  constructor
  · exact (C10_particle_tick.2.2.2.1 0 60 1 (1/100) 100 100
      ⟨5, 7, 2, 1, 0, 1⟩ (by norm_num)).1
  · exact C10_particle_tick.2.2.2.2.2.2 (17/10) 100 (by norm_num)
      (by norm_num) (by norm_num)

end Vizmatic
